import Mathlib

/-!
Verification of the SARK authorization gateway and its decision cache.

The development shallowly embeds:
  * the gateway's `authorize` handler (`src/rust/sark-gateway/src/main.rs`),
    with the external policy engine (`grid_opa::PolicyEngine`), the process
    cache (`grid_cache::Cache`) and the serde codec treated as boundary
    oracles, exactly as the handler treats them;
  * the PyO3 boundary of the decision cache
    (`src/rust/sark-cache/src/python.rs`): `RustCache::new`, its operations
    and `map_cache_error`;
  * the LRU+TTL store `LRUTTLCache` itself.  Its module (`crate::lru_ttl`)
    is not part of the available sources, so it is modelled from the spec
    (sections 3, 4.1, 4.2): an association list of entries with absolute
    expiry timestamps and recency markers, lazy expiry on read, purge of
    expired entries and LRU eviction on insert.

All timestamps are explicit natural numbers (`now` is an argument), and all
state is passed explicitly.
-/

set_option linter.unusedVariables false

/-! ## A minimal JSON value model (for `serde_json::Value`) -/

/-- JSON values as manipulated by the gateway (`serde_json::Value`). -/
inductive Json where
  | null
  | bool (b : Bool)
  | num (n : Int)
  | str (s : String)
  | arr (elems : List Json)
  | obj (fields : List (String × Json))

/-- Field lookup in an object's field list (first match). -/
def lookupField : List (String × Json) → String → Option Json
  | [], _ => none
  | p :: rest, k => if p.1 = k then some p.2 else lookupField rest k

/-- `serde_json::Value::get` on an object: field lookup; `None` on any
non-object value. -/
def Json.get : Json → String → Option Json
  | .obj fields, k => lookupField fields k
  | _, _ => none

/-- `serde_json::Value::as_bool`. -/
def Json.asBool : Json → Option Bool
  | .bool b => some b
  | _ => none

/-- `serde_json::Value::as_str`. -/
def Json.asStr : Json → Option String
  | .str s => some s
  | _ => none

/-! ## Gateway data model (`sark-gateway/src/main.rs`) -/

/-- The body of `POST /gateway/authorize` (struct `GatewayAuthRequest`). -/
structure GatewayAuthRequest where
  action : String
  server_name : String
  tool_name : String
  parameters : Option Json
  context : Option Json
  sensitivity_level : Option String

/-- The gateway's response (struct `GatewayAuthResponse`). -/
structure GatewayAuthResponse where
  allow : Bool
  reason : String
  filtered_parameters : Option Json
  cache_ttl : Nat

/-- User context extracted from the JWT (struct `UserContext`). -/
structure UserContext where
  user_id : String
  email : String
  roles : List String
  permissions : List String

/-- The placeholder user hard-coded in `authorize` (main.rs lines 110-115). -/
def placeholderUser : UserContext :=
  { user_id := "user123"
  , email := "user@example.com"
  , roles := ["developer"]
  , permissions := ["mcp:invoke"] }

/-- Cache key derivation of `authorize` (main.rs lines 118-121):
`format!("auth:{}:{}:{}", user.user_id, request.action, request.server_name)`.
Note that `request.tool_name` is not part of the key. -/
def authCacheKey (user_id action server_name : String) : String :=
  "auth:" ++ user_id ++ ":" ++ action ++ ":" ++ server_name

/-- The cache key `authorize` computes for a request. -/
def requestKey (req : GatewayAuthRequest) : String :=
  authCacheKey placeholderUser.user_id req.action req.server_name

/-- Encoding of `Option<serde_json::Value>`: serde serializes `None` as
JSON `null`. -/
def optJson : Option Json → Json
  | some j => j
  | none => .null

/-- The OPA input document built by `authorize` (main.rs lines 133-148). -/
def opaInput (user : UserContext) (req : GatewayAuthRequest) : Json :=
  .obj
    [ ("user", .obj
        [ ("id", .str user.user_id)
        , ("email", .str user.email)
        , ("roles", .arr (user.roles.map .str))
        , ("permissions", .arr (user.permissions.map .str)) ])
    , ("action", .str req.action)
    , ("resource", .obj
        [ ("server", .str req.server_name)
        , ("tool", .str req.tool_name)
        , ("sensitivity", .str (req.sensitivity_level.getD "medium")) ])
    , ("parameters", optJson req.parameters)
    , ("context", optJson req.context) ]

/-- Boundary of the gateway's collaborators, modelled from the spec's
external-interface section: the process cache (`grid_cache::Cache`,
state type `σ`), the policy engine (`grid_opa::PolicyEngine::evaluate`),
and the serde codec used for cached decisions.  `authorize` is
parametric in these, exactly as the handler only observes their
results: `cacheGet`/`cacheSet` are the store reads/writes (the Rust
code discards `set`'s result), `evalPolicy` receives the rule path and
the input document, `serialize` is `serde_json::to_string` and
`deserialize` is `serde_json::from_str::<GatewayAuthResponse>`. -/
structure GatewayEnv (σ : Type) where
  cacheGet : σ → String → Option String
  cacheSet : σ → String → String → Nat → σ
  evalPolicy : String → Json → Except String Json
  serialize : GatewayAuthResponse → Option String
  deserialize : String → Option GatewayAuthResponse

/-- The response `authorize` builds from a successful evaluation result
(main.rs lines 153-165): missing or non-boolean `allow` defaults to
`false`, missing `reason` defaults to `"Policy evaluated"`, and
`filtered_parameters` is passed through; `cache_ttl` is 300 seconds. -/
def decisionOf (result : Json) : GatewayAuthResponse :=
  { allow := ((result.get "allow").bind Json.asBool).getD false
  , reason := ((result.get "reason").bind Json.asStr).getD "Policy evaluated"
  , filtered_parameters := result.get "filtered_parameters"
  , cache_ttl := 300 }

/-- The HTTP 500 status code (`StatusCode::INTERNAL_SERVER_ERROR`). -/
def internalServerError : Nat := 500

/-- The evaluation arm of `authorize` (main.rs lines 151-187): invoke the
policy engine; on success build the response, serialize it and (when
serialization succeeds) write it to the cache with TTL 300, returning the
response either way; on failure return HTTP 500 with the error message. -/
def evalAndRespond {σ : Type} (env : GatewayEnv σ) (st : σ) (cache_key : String)
    (user : UserContext) (req : GatewayAuthRequest) :
    Except (Nat × String) GatewayAuthResponse × σ :=
  match env.evalPolicy "data.mcp.gateway.allow" (opaInput user req) with
  | .ok result =>
      let response := decisionOf result
      match env.serialize response with
      | some cached_value =>
          (.ok response, env.cacheSet st cache_key cached_value 300)
      | none => (.ok response, st)
  | .error e => (.error (internalServerError, "Policy evaluation error: " ++ e), st)

/-- The `authorize` handler (main.rs lines 97-188): derive the cache key,
try the cache, return a deserializable hit immediately, otherwise fall
through to policy evaluation. -/
def authorize {σ : Type} (env : GatewayEnv σ) (st : σ) (req : GatewayAuthRequest) :
    Except (Nat × String) GatewayAuthResponse × σ :=
  match env.cacheGet st (requestKey req) with
  | some cached =>
      match env.deserialize cached with
      | some response => (.ok response, st)
      | none => evalAndRespond env st (requestKey req) placeholderUser req
  | none => evalAndRespond env st (requestKey req) placeholderUser req

/-- A request that reaches policy evaluation: the cache misses, or the hit
does not deserialize as a `GatewayAuthResponse`. -/
def requestMisses {σ : Type} (env : GatewayEnv σ) (st : σ) (req : GatewayAuthRequest) : Prop :=
  match env.cacheGet st (requestKey req) with
  | none => True
  | some v => env.deserialize v = none

/-- Projection of an `authorize` outcome to the decision's `allow` field. -/
def allowOf {σ : Type} (r : Except (Nat × String) GatewayAuthResponse × σ) : Option Bool :=
  match r.1 with
  | .ok resp => some resp.allow
  | .error _ => none

/-! ## Claim C1: cache-key injectivity -/

/-- A string that contains no ':' separator. -/
def colonFree (s : String) : Prop := ':' ∉ s.data

instance (s : String) : Decidable (colonFree s) := by
  unfold colonFree; infer_instance

/-- Splitting a separator-delimited concatenation is unambiguous when the
left parts avoid the separator. -/
theorem append_sep_inj (sep : Char) :
    ∀ (u₁ u₂ r₁ r₂ : List Char), sep ∉ u₁ → sep ∉ u₂ →
      u₁ ++ sep :: r₁ = u₂ ++ sep :: r₂ → u₁ = u₂ ∧ r₁ = r₂ := by
  intro u₁
  induction u₁ with
  | nil =>
      intro u₂ r₁ r₂ _ hu₂ h
      cases u₂ with
      | nil => simpa using h
      | cons b bs =>
          simp only [List.nil_append, List.cons_append, List.cons.injEq] at h
          exact absurd (h.1 ▸ List.mem_cons_self b bs) hu₂
  | cons a as ih =>
      intro u₂ r₁ r₂ hu₁ hu₂ h
      cases u₂ with
      | nil =>
          simp only [List.cons_append, List.nil_append, List.cons.injEq] at h
          exact absurd (h.1 ▸ List.mem_cons_self a as) hu₁
      | cons b bs =>
          simp only [List.cons_append, List.cons.injEq] at h
          have hrec := ih bs r₁ r₂ (fun hm => hu₁ (List.mem_cons_of_mem a hm))
            (fun hm => hu₂ (List.mem_cons_of_mem b hm)) h.2
          exact ⟨by rw [h.1, hrec.1], hrec.2⟩

/-- Characters of the derived cache key, as a separated concatenation. -/
theorem authCacheKey_data (u a s : String) :
    (authCacheKey u a s).data =
      "auth:".data ++ (u.data ++ ':' :: (a.data ++ ':' :: s.data)) := by
  simp [authCacheKey, String.data_append, List.append_assoc]

/-- Claim C1, counterexample: the key derivation at main.rs lines 118-121
omits the tool name, so two requests whose (subject, action, resource)
triples differ only in the resource's tool name receive the same cache
key. -/
theorem authCacheKey_ignores_tool_name :
    ({ action := "tools/call", server_name := "github", tool_name := "create_issue"
     , parameters := none, context := none, sensitivity_level := none } :
       GatewayAuthRequest).tool_name ≠
    ({ action := "tools/call", server_name := "github", tool_name := "delete_repo"
     , parameters := none, context := none, sensitivity_level := none } :
       GatewayAuthRequest).tool_name ∧
    requestKey
      { action := "tools/call", server_name := "github", tool_name := "create_issue"
      , parameters := none, context := none, sensitivity_level := none } =
    requestKey
      { action := "tools/call", server_name := "github", tool_name := "delete_repo"
      , parameters := none, context := none, sensitivity_level := none } := by
  exact ⟨by decide, rfl⟩

/-- Claim C1 (amended): the derived cache key is injective with respect to
the components it actually contains — subject, action, and server name —
whenever subject and action contain no ':' character; the tool name is
not part of the key. -/
theorem authCacheKey_injective (u₁ a₁ s₁ u₂ a₂ s₂ : String)
    (hu₁ : colonFree u₁) (ha₁ : colonFree a₁)
    (hu₂ : colonFree u₂) (ha₂ : colonFree a₂)
    (h : authCacheKey u₁ a₁ s₁ = authCacheKey u₂ a₂ s₂) :
    u₁ = u₂ ∧ a₁ = a₂ ∧ s₁ = s₂ := by
  have hdata : (authCacheKey u₁ a₁ s₁).data = (authCacheKey u₂ a₂ s₂).data := by
    rw [h]
  rw [authCacheKey_data, authCacheKey_data] at hdata
  have htail := List.append_cancel_left hdata
  have h₁ := append_sep_inj ':' _ _ _ _ hu₁ hu₂ htail
  have h₂ := append_sep_inj ':' _ _ _ _ ha₁ ha₂ h₁.2
  refine ⟨?_, ?_, ?_⟩
  · cases u₁; cases u₂; exact congrArg String.mk h₁.1
  · cases a₁; cases a₂; exact congrArg String.mk h₂.1
  · cases s₁; cases s₂; exact congrArg String.mk h₂.2

/-- Witness for the amended claim C1 at concrete colon-free inputs. -/
theorem authCacheKey_injective_witness :
    colonFree "user123" ∧ colonFree "tools/call" ∧
    ("user123" : String) = "user123" ∧ ("tools/call" : String) = "tools/call" ∧
    ("github" : String) = "github" := by
  refine ⟨by decide, by decide, ?_⟩
  have h := authCacheKey_injective "user123" "tools/call" "github"
    "user123" "tools/call" "github" (by decide) (by decide) (by decide) (by decide) rfl
  exact ⟨h.1, h.2.1, h.2.2⟩

/-! ## Shared helper lemmas about `authorize` -/

/-- On any request that reaches evaluation, a successful evaluation yields
the decision built from the result document, whatever the serializer and
the cache write do. -/
theorem authorize_ok_decision {σ : Type} (env : GatewayEnv σ) (st : σ)
    (req : GatewayAuthRequest) (result : Json)
    (hmiss : requestMisses env st req)
    (hok : env.evalPolicy "data.mcp.gateway.allow" (opaInput placeholderUser req) = .ok result) :
    (authorize env st req).1 = .ok (decisionOf result) := by
  unfold requestMisses at hmiss
  cases hget : env.cacheGet st (requestKey req) with
  | none =>
      cases hser : env.serialize (decisionOf result) <;>
        simp [authorize, hget, evalAndRespond, hok, hser]
  | some v =>
      rw [hget] at hmiss
      simp only at hmiss
      cases hser : env.serialize (decisionOf result) <;>
        simp [authorize, hget, hmiss, evalAndRespond, hok, hser]

/-! ## Concrete boundary instantiations used as witnesses -/

/-- Association-list lookup, the concrete cache used in witnesses. -/
def assocGet : List (String × String) → String → Option String
  | [], _ => none
  | p :: rest, k => if p.1 = k then some p.2 else assocGet rest k

/-- A concrete authorization request. -/
def demoReq : GatewayAuthRequest :=
  { action := "tools/call", server_name := "github", tool_name := "create_issue"
  , parameters := none, context := none, sensitivity_level := none }

/-- A concrete cached decision. -/
def demoResponse : GatewayAuthResponse :=
  { allow := true, reason := "cached", filtered_parameters := none, cache_ttl := 300 }

/-- Environment whose policy engine always fails. -/
def demoEnvErr : GatewayEnv (List (String × String)) :=
  { cacheGet := assocGet
  , cacheSet := fun st k v _ => (k, v) :: st
  , evalPolicy := fun _ _ => .error "boom"
  , serialize := fun _ => none
  , deserialize := fun _ => none }

/-- Environment whose cache always hits with a value that does not
deserialize, and whose engine allows. -/
def hitEnvTrue : GatewayEnv (List (String × String)) :=
  { cacheGet := fun _ _ => some "garbage"
  , cacheSet := fun st k v _ => (k, v) :: st
  , evalPolicy := fun _ _ => .ok (.obj [("allow", .bool true)])
  , serialize := fun _ => none
  , deserialize := fun _ => none }

/-- Same as `hitEnvTrue` but the engine denies. -/
def hitEnvFalse : GatewayEnv (List (String × String)) :=
  { hitEnvTrue with evalPolicy := fun _ _ => .ok (.obj [("allow", .bool false)]) }

/-- Environment with a cache hit that deserializes to `demoResponse`; its
engine fails, so any evaluation would be visible in the outcome. -/
def goodHitEnv : GatewayEnv (List (String × String)) :=
  { cacheGet := fun _ _ => some "cached-blob"
  , cacheSet := fun st k v _ => (k, v) :: st
  , evalPolicy := fun _ _ => .error "engine must not be called"
  , serialize := fun _ => none
  , deserialize := fun s => if s = "cached-blob" then some demoResponse else none }

/-- Environment that always misses, evaluates to an allow decision, and
whose serializer always fails (so the cache write never happens). -/
def failWriteEnv : GatewayEnv (List (String × String)) :=
  { cacheGet := fun _ _ => none
  , cacheSet := fun st _ _ _ => st
  , evalPolicy := fun _ _ => .ok (.obj [("allow", .bool true), ("reason", .str "role permits")])
  , serialize := fun _ => none
  , deserialize := fun _ => none }

/-- Environment that always misses and evaluates to an empty decision
document. -/
def emptyDocEnv : GatewayEnv (List (String × String)) :=
  { cacheGet := fun _ _ => none
  , cacheSet := fun st _ _ _ => st
  , evalPolicy := fun _ _ => .ok (.obj [])
  , serialize := fun _ => none
  , deserialize := fun _ => none }

/-! ## Claim C2: evaluation failure is a 500 and is never cached -/

/-- Claim C2: when the policy engine's evaluate call fails, `authorize`
returns HTTP 500 with the error message and leaves the cache state
untouched (no write occurs for the request's key). -/
theorem authorize_eval_error_is_500_and_no_write {σ : Type} (env : GatewayEnv σ)
    (st : σ) (req : GatewayAuthRequest) (e : String)
    (hmiss : requestMisses env st req)
    (herr : env.evalPolicy "data.mcp.gateway.allow" (opaInput placeholderUser req) = .error e) :
    authorize env st req =
      (.error (internalServerError, "Policy evaluation error: " ++ e), st) := by
  unfold requestMisses at hmiss
  cases hget : env.cacheGet st (requestKey req) with
  | none => simp [authorize, hget, evalAndRespond, herr]
  | some v =>
      rw [hget] at hmiss
      simp only at hmiss
      simp [authorize, hget, hmiss, evalAndRespond, herr]

/-- Witness for claim C2 at a concrete failing engine. -/
theorem authorize_eval_error_witness :
    requestMisses demoEnvErr [] demoReq ∧
    demoEnvErr.evalPolicy "data.mcp.gateway.allow" (opaInput placeholderUser demoReq) =
      .error "boom" ∧
    authorize demoEnvErr [] demoReq =
      (.error (internalServerError, "Policy evaluation error: " ++ "boom"), []) := by
  exact ⟨trivial, rfl,
    authorize_eval_error_is_500_and_no_write demoEnvErr [] demoReq "boom" trivial rfl⟩

/-! ## Claim C5: cache hits bypass the policy engine -/

/-- Claim C5, counterexample: a cache hit whose stored value does not
deserialize does reach the policy engine — with everything else fixed,
changing only the engine's verdict changes the handler's outcome, so the
engine is invoked on this hit and no deserialized cached decision is
returned. -/
theorem authorize_hit_still_evaluates :
    hitEnvTrue.cacheGet [] (requestKey demoReq) = some "garbage" ∧
    hitEnvTrue.deserialize "garbage" = none ∧
    allowOf (authorize hitEnvTrue [] demoReq) = some true ∧
    allowOf (authorize hitEnvFalse [] demoReq) = some false :=
  ⟨rfl, rfl, rfl, rfl⟩

/-- Claim C5 (amended): on a cache hit whose stored value deserializes as
a `GatewayAuthResponse`, `authorize` returns that decision immediately
with the state unchanged; the result is the same for every policy engine,
serializer and cache writer, so the engine is not invoked. -/
theorem authorize_cache_hit_no_eval {σ : Type} (env : GatewayEnv σ) (st : σ)
    (req : GatewayAuthRequest) (v : String) (response : GatewayAuthResponse)
    (hhit : env.cacheGet st (requestKey req) = some v)
    (hdec : env.deserialize v = some response) :
    authorize env st req = (.ok response, st) := by
  simp [authorize, hhit, hdec]

/-- Witness for the amended claim C5 at a concrete deserializable hit. -/
theorem authorize_cache_hit_witness :
    goodHitEnv.cacheGet [] (requestKey demoReq) = some "cached-blob" ∧
    goodHitEnv.deserialize "cached-blob" = some demoResponse ∧
    authorize goodHitEnv [] demoReq = (.ok demoResponse, []) := by
  exact ⟨rfl, rfl,
    authorize_cache_hit_no_eval goodHitEnv [] demoReq "cached-blob" demoResponse rfl rfl⟩

/-! ## Claim C6: cache-write failure never alters the decision -/

/-- Claim C6: if evaluation succeeds, the handler returns the evaluated
decision whatever the serializer and the cache write do — the environment
(including an always-failing serializer and an arbitrary, possibly
failing, cache writer) is universally quantified and never appears in the
returned decision. -/
theorem authorize_write_failure_nonfatal {σ : Type} (env : GatewayEnv σ)
    (st : σ) (req : GatewayAuthRequest) (result : Json)
    (hmiss : requestMisses env st req)
    (hok : env.evalPolicy "data.mcp.gateway.allow" (opaInput placeholderUser req) = .ok result) :
    (authorize env st req).1 = .ok (decisionOf result) :=
  authorize_ok_decision env st req result hmiss hok

/-- Witness for claim C6: the serializer fails, so no cache write can
happen, yet the evaluated allow decision is returned. -/
theorem authorize_write_failure_witness :
    requestMisses failWriteEnv [] demoReq ∧
    failWriteEnv.evalPolicy "data.mcp.gateway.allow" (opaInput placeholderUser demoReq) =
      .ok (.obj [("allow", .bool true), ("reason", .str "role permits")]) ∧
    (authorize failWriteEnv [] demoReq).1 =
      .ok (decisionOf (.obj [("allow", .bool true), ("reason", .str "role permits")])) := by
  exact ⟨trivial, rfl,
    authorize_write_failure_nonfatal failWriteEnv [] demoReq _ trivial rfl⟩

/-! ## Claim C9: a missing allow field defaults to deny -/

/-- Claim C9: when evaluation succeeds but the decision document carries
no boolean `allow` field, the returned decision has `allow = false`, and
when `reason` is also absent the reason is "Policy evaluated". -/
theorem authorize_missing_allow_defaults_deny {σ : Type} (env : GatewayEnv σ)
    (st : σ) (req : GatewayAuthRequest) (result : Json)
    (hmiss : requestMisses env st req)
    (hok : env.evalPolicy "data.mcp.gateway.allow" (opaInput placeholderUser req) = .ok result)
    (hallow : (result.get "allow").bind Json.asBool = none) :
    ∃ r, (authorize env st req).1 = .ok r ∧ r.allow = false ∧
      ((result.get "reason").bind Json.asStr = none → r.reason = "Policy evaluated") := by
  refine ⟨decisionOf result, authorize_ok_decision env st req result hmiss hok, ?_, ?_⟩
  · simp [decisionOf, hallow]
  · intro hr; simp [decisionOf, hr]

/-- Witness for claim C9 at the empty decision document. -/
theorem authorize_missing_allow_witness :
    requestMisses emptyDocEnv [] demoReq ∧
    ((Json.obj []).get "allow").bind Json.asBool = none ∧
    (∃ r, (authorize emptyDocEnv [] demoReq).1 = .ok r ∧ r.allow = false ∧
      (((Json.obj []).get "reason").bind Json.asStr = none →
        r.reason = "Policy evaluated")) := by
  exact ⟨trivial, rfl,
    authorize_missing_allow_defaults_deny emptyDocEnv [] demoReq _ trivial rfl rfl⟩

/-! ## Claim C10: a corrupt cached entry behaves as a miss -/

/-- Claim C10: a cache hit whose stored value does not deserialize as a
`GatewayAuthResponse` falls through to policy evaluation exactly as a
miss would, and in particular a successful evaluation still yields its
decision — the corrupt entry never fails the request. -/
theorem authorize_corrupt_hit_falls_through {σ : Type} (env : GatewayEnv σ)
    (st : σ) (req : GatewayAuthRequest) (v : String)
    (hhit : env.cacheGet st (requestKey req) = some v)
    (hbad : env.deserialize v = none) :
    authorize env st req = evalAndRespond env st (requestKey req) placeholderUser req ∧
    ∀ result, env.evalPolicy "data.mcp.gateway.allow" (opaInput placeholderUser req) =
        .ok result →
      (authorize env st req).1 = .ok (decisionOf result) := by
  constructor
  · simp [authorize, hhit, hbad]
  · intro result hok
    have hmiss : requestMisses env st req := by
      unfold requestMisses
      rw [hhit]
      exact hbad
    exact authorize_ok_decision env st req result hmiss hok

/-- Witness for claim C10 at a concrete corrupt hit. -/
theorem authorize_corrupt_hit_witness :
    hitEnvTrue.cacheGet [] (requestKey demoReq) = some "garbage" ∧
    hitEnvTrue.deserialize "garbage" = none ∧
    authorize hitEnvTrue [] demoReq =
      evalAndRespond hitEnvTrue [] (requestKey demoReq) placeholderUser demoReq := by
  exact ⟨rfl, rfl,
    (authorize_corrupt_hit_falls_through hitEnvTrue [] demoReq "garbage" rfl rfl).1⟩

/-! ## The decision cache (`sark-cache`) -/

/-- The store's internal error taxonomy (`crate::error::CacheError`, as
consumed by `python.rs`). -/
inductive CacheError where
  | capacityExceeded
  | invalidTTL (msg : String)
  | internal (msg : String)

/-- The Python exceptions raised at the PyO3 boundary. -/
inductive PyErr where
  | valueError (msg : String)
  | runtimeError (msg : String)
deriving DecidableEq

/-- A stored cache entry.  Modelled from the spec: the `lru_ttl` module is
not among the available sources; the spec's data model (section 3) gives
each entry a value, an absolute expiry timestamp and a recency marker. -/
structure Entry where
  value : String
  expires_at : Nat
  recency : Nat
deriving DecidableEq

/-- Modelled from the spec: the LRU+TTL store `LRUTTLCache`
(`crate::lru_ttl`, not among the available sources).  Entries are an
association list keyed by strings; `tick` is the monotonic counter issuing
recency markers; `max_size` and `ttl_secs` are fixed at construction. -/
structure LRUTTLCache where
  max_size : Nat
  ttl_secs : Nat
  entries : List (String × Entry)
  tick : Nat
deriving DecidableEq

/-- Keys of an entry list. -/
def keysOf (es : List (String × Entry)) : List String := es.map Prod.fst

/-- First entry stored under a key. -/
def lookupE : List (String × Entry) → String → Option Entry
  | [], _ => none
  | p :: rest, k => if p.1 = k then some p.2 else lookupE rest k

/-- Remove every entry stored under a key. -/
def eraseE : List (String × Entry) → String → List (String × Entry)
  | [], _ => []
  | p :: rest, k => if p.1 = k then eraseE rest k else p :: eraseE rest k

/-- The entries still live at `now` (spec 4.2: `is_live(entry, now) =
now < entry.expires_at`). -/
def liveE (now : Nat) : List (String × Entry) → List (String × Entry)
  | [] => []
  | p :: rest => if now < p.2.expires_at then p :: liveE now rest else liveE now rest

/-- Eviction preference between two candidates: older recency wins, ties
broken by the smaller key (spec 4.2's deterministic tie-break). -/
def pickVictim (a b : String × Entry) : String × Entry :=
  if b.2.recency < a.2.recency then b
  else if b.2.recency = a.2.recency ∧ b.1 < a.1 then b
  else a

/-- The eviction victim: the live entry with the oldest recency marker. -/
def evictionVictim : List (String × Entry) → Option (String × Entry)
  | [] => none
  | p :: rest => some (rest.foldl pickVictim p)

/-- Modelled from the spec: construction of the store (`LRUTTLCache::new`):
an empty store with the given capacity and default TTL. -/
def LRUTTLCache.new (max_size ttl_secs : Nat) : LRUTTLCache :=
  { max_size := max_size, ttl_secs := ttl_secs, entries := [], tick := 0 }

/-- Modelled from the spec: `get` (spec 4.1): return the value only if the
entry exists and is live — an expired entry behaves as an absent one — and
refresh the recency marker of a live hit. -/
def LRUTTLCache.get (st : LRUTTLCache) (now : Nat) (key : String) :
    Option String × LRUTTLCache :=
  match lookupE st.entries key with
  | some e =>
      if now < e.expires_at then
        (some e.value,
         { st with entries := (key, { e with recency := st.tick }) :: eraseE st.entries key
                 , tick := st.tick + 1 })
      else (none, st)
  | none => (none, st)

/-- The live entries other than `key` — the candidate pool when inserting
`key` as a new entry. -/
def liveOthers (st : LRUTTLCache) (now : Nat) (key : String) :
    List (String × Entry) :=
  eraseE (liveE now st.entries) key

/-- Modelled from the spec: insertion of a key with no live entry: expired
entries are reclaimed first (spec 4.2: expired slots are preferred over
evicting a live entry); if the live entries already fill the capacity the
least-recently-used live entry is evicted (exactly one); if no victim
exists while capacity is exceeded (only possible with `max_size = 0`) the
write fails with `CapacityExceeded`. -/
def insertNew (st : LRUTTLCache) (now : Nat) (key : String) (fresh : Entry) :
    Except CacheError LRUTTLCache :=
  if st.max_size ≤ (liveOthers st now key).length then
    match evictionVictim (liveOthers st now key) with
    | some v =>
        .ok { st with entries := (key, fresh) :: eraseE (liveOthers st now key) v.1
                    , tick := st.tick + 1 }
    | none => .error .capacityExceeded
  else
    .ok { st with entries := (key, fresh) :: liveOthers st now key
                , tick := st.tick + 1 }

/-- The entry a write stores: the supplied TTL (or the default) added to
the write time, stamped with the current recency tick. -/
def freshEntry (st : LRUTTLCache) (now : Nat) (value : String) (ttl : Option Nat) :
    Entry :=
  { value := value, expires_at := now + ttl.getD st.ttl_secs, recency := st.tick }

/-- Modelled from the spec: `set` (spec 4.1): reject a zero TTL override
with `InvalidTTL`; overwrite a live entry in place (never triggers
eviction); otherwise insert as a new entry, evicting if necessary. -/
def LRUTTLCache.set (st : LRUTTLCache) (now : Nat) (key value : String)
    (ttl : Option Nat) : Except CacheError LRUTTLCache :=
  if ttl = some 0 then .error (.invalidTTL "TTL must be greater than 0")
  else
    match lookupE st.entries key with
    | some e =>
        if now < e.expires_at then
          .ok { st with entries := (key, freshEntry st now value ttl) :: eraseE st.entries key
                      , tick := st.tick + 1 }
        else insertNew st now key (freshEntry st now value ttl)
    | none => insertNew st now key (freshEntry st now value ttl)

/-- Modelled from the spec: `delete` (spec 4.1): remove the entry, live or
expired, returning whether a physical entry existed. -/
def LRUTTLCache.delete (st : LRUTTLCache) (key : String) : Bool × LRUTTLCache :=
  match lookupE st.entries key with
  | some _ => (true, { st with entries := eraseE st.entries key })
  | none => (false, st)

/-- Modelled from the spec: `clear` removes all entries unconditionally. -/
def LRUTTLCache.clear (st : LRUTTLCache) : LRUTTLCache :=
  { st with entries := [] }

/-- Modelled from the spec: `size` returns the number of stored entries. -/
def LRUTTLCache.size (st : LRUTTLCache) : Nat := st.entries.length

/-- Modelled from the spec: `cleanup_expired` purges every expired entry
and returns the number removed. -/
def LRUTTLCache.cleanup_expired (st : LRUTTLCache) (now : Nat) : Nat × LRUTTLCache :=
  (st.entries.length - (liveE now st.entries).length,
   { st with entries := liveE now st.entries })

/-- One store operation, with its observation time where relevant. -/
inductive CacheOp where
  | get (now : Nat) (key : String)
  | set (now : Nat) (key value : String) (ttl : Option Nat)
  | del (key : String)
  | clear
  | cleanup (now : Nat)

/-- The state reached after one operation (a failed `set` leaves the
store untouched). -/
def stepOp (st : LRUTTLCache) : CacheOp → LRUTTLCache
  | .get now key => (st.get now key).2
  | .set now key value ttl =>
      match st.set now key value ttl with
      | .ok st' => st'
      | .error _ => st
  | .del key => (st.delete key).2
  | .clear => st.clear
  | .cleanup now => (st.cleanup_expired now).2

/-- The state reached after a sequence of operations. -/
def runOps (st : LRUTTLCache) : List CacheOp → LRUTTLCache
  | [] => st
  | op :: rest => runOps (stepOp st op) rest

/-- Store invariant: keys are distinct and the entry count is within the
capacity bound. -/
def CacheInv (st : LRUTTLCache) : Prop :=
  (keysOf st.entries).Nodup ∧ st.entries.length ≤ st.max_size

instance (st : LRUTTLCache) : Decidable (CacheInv st) := by
  unfold CacheInv; infer_instance

/-! ## The PyO3 boundary (`sark-cache/src/python.rs`) -/

/-- The Python wrapper class `RustCache` around the Rust store. -/
structure RustCache where
  inner : LRUTTLCache
deriving DecidableEq

/-- `RustCache::new` (python.rs lines 21-32): validate `max_size > 0` and
`ttl_secs > 0` at construction, raising `ValueError` otherwise. -/
def RustCache.new (max_size ttl_secs : Nat) : Except PyErr RustCache :=
  if max_size = 0 then .error (.valueError "max_size must be greater than 0")
  else if ttl_secs = 0 then .error (.valueError "ttl_secs must be greater than 0")
  else .ok { inner := LRUTTLCache.new max_size ttl_secs }

/-- `map_cache_error` (python.rs lines 97-109): the pure, total mapping
from the store's error taxonomy to Python exceptions. -/
def map_cache_error : CacheError → PyErr
  | .capacityExceeded => .runtimeError "Cache capacity exceeded"
  | .invalidTTL msg => .valueError ("Invalid TTL: " ++ msg)
  | .internal msg => .runtimeError ("Internal cache error: " ++ msg)

/-! ## Claim C3: expired entries are absent to `get` -/

/-- Claim C3: whenever `now` has reached an entry's `expires_at`, `get`
returns absent and leaves the store unchanged, no matter whether
`cleanup_expired` was ever called — exactly as for an absent key. -/
theorem get_expired_absent (st : LRUTTLCache) (now : Nat) (key : String) (e : Entry)
    (hfind : lookupE st.entries key = some e)
    (hexp : e.expires_at ≤ now) :
    (st.get now key).1 = none ∧ (st.get now key).2 = st := by
  unfold LRUTTLCache.get
  rw [hfind]
  simp [Nat.not_lt.mpr hexp]

/-- Witness for claim C3 at a concrete expired entry. -/
theorem get_expired_absent_witness :
    lookupE [("k", ({ value := "v", expires_at := 10, recency := 0 } : Entry))] "k" =
      some { value := "v", expires_at := 10, recency := 0 } ∧
    (10 : Nat) ≤ 25 ∧
    (LRUTTLCache.get { max_size := 4, ttl_secs := 10
                     , entries := [("k", { value := "v", expires_at := 10, recency := 0 })]
                     , tick := 1 } 25 "k").1 = none := by
  refine ⟨by decide, by decide, ?_⟩
  exact (get_expired_absent
    { max_size := 4, ttl_secs := 10
    , entries := [("k", { value := "v", expires_at := 10, recency := 0 })], tick := 1 }
    25 "k" { value := "v", expires_at := 10, recency := 0 } (by decide) (by decide)).1

/-! ## Claim C7: construction-time validation -/

/-- Claim C7: `RustCache::new` rejects a zero capacity or zero TTL with a
`ValueError` at construction time, and for every positive capacity and TTL
returns the store built on an empty `LRUTTLCache` — which satisfies the
store invariant, so nothing is deferred to first use. -/
theorem rustcache_new_validates (max_size ttl_secs : Nat) :
    (max_size = 0 →
      RustCache.new max_size ttl_secs =
        .error (.valueError "max_size must be greater than 0")) ∧
    (max_size ≠ 0 → ttl_secs = 0 →
      RustCache.new max_size ttl_secs =
        .error (.valueError "ttl_secs must be greater than 0")) ∧
    (0 < max_size → 0 < ttl_secs →
      RustCache.new max_size ttl_secs = .ok { inner := LRUTTLCache.new max_size ttl_secs } ∧
      CacheInv (LRUTTLCache.new max_size ttl_secs)) := by
  refine ⟨fun h0 => ?_, fun hm h0 => ?_, fun hm ht => ⟨?_, ?_⟩⟩
  · simp [RustCache.new, h0]
  · simp [RustCache.new, hm, h0]
  · simp [RustCache.new, Nat.pos_iff_ne_zero.mp hm, Nat.pos_iff_ne_zero.mp ht]
  · exact ⟨List.nodup_nil, Nat.zero_le _⟩

/-- Witness for claim C7 at concrete valid and invalid parameters. -/
theorem rustcache_new_validates_witness :
    RustCache.new 0 60 = .error (.valueError "max_size must be greater than 0") ∧
    RustCache.new 100 0 = .error (.valueError "ttl_secs must be greater than 0") ∧
    RustCache.new 100 60 = .ok { inner := LRUTTLCache.new 100 60 } := by
  refine ⟨(rustcache_new_validates 0 60).1 rfl,
    (rustcache_new_validates 100 0).2.1 (by decide) rfl,
    ((rustcache_new_validates 100 60).2.2 (by decide) (by decide)).1⟩

/-! ## Claim C8: the boundary error mapping -/

/-- Claim C8: `map_cache_error` is a pure total function on the error
taxonomy: `CapacityExceeded` and `Internal` map to a runtime error,
`InvalidTTL` to a value error, each carrying the documented message, and
every `CacheError` value is covered by these three cases. -/
theorem map_cache_error_total :
    map_cache_error .capacityExceeded = .runtimeError "Cache capacity exceeded" ∧
    (∀ msg, map_cache_error (.invalidTTL msg) = .valueError ("Invalid TTL: " ++ msg)) ∧
    (∀ msg, map_cache_error (.internal msg) =
      .runtimeError ("Internal cache error: " ++ msg)) ∧
    (∀ e : CacheError, (∃ msg, map_cache_error e = .runtimeError msg) ∨
      (∃ msg, map_cache_error e = .valueError msg)) := by
  refine ⟨rfl, fun msg => rfl, fun msg => rfl, fun e => ?_⟩
  cases e with
  | capacityExceeded => exact .inl ⟨_, rfl⟩
  | invalidTTL msg => exact .inr ⟨_, rfl⟩
  | internal msg => exact .inl ⟨_, rfl⟩

/-! ## List-level lemmas about the store's entry operations -/

theorem lookupE_eq_none_iff {es : List (String × Entry)} {k : String} :
    lookupE es k = none ↔ k ∉ keysOf es := by
  induction es with
  | nil => simp [lookupE, keysOf]
  | cons p rest ih =>
      simp only [lookupE, keysOf, List.map_cons, List.mem_cons]
      by_cases h : p.1 = k
      · simp only [if_pos h]
        constructor
        · intro hfalse; cases hfalse
        · intro hmem; exact absurd (Or.inl h.symm) hmem
      · simp only [if_neg h]
        rw [ih]
        constructor
        · intro hnot hor
          rcases hor with heq | hmem
          · exact h heq.symm
          · exact hnot hmem
        · intro hnot hmem
          exact hnot (Or.inr hmem)

theorem mem_keysOf_of_lookupE {es : List (String × Entry)} {k : String} {e : Entry}
    (h : lookupE es k = some e) : k ∈ keysOf es := by
  by_contra hmem
  rw [← lookupE_eq_none_iff] at hmem
  rw [hmem] at h
  cases h

theorem eraseE_sublist (es : List (String × Entry)) (k : String) :
    List.Sublist (eraseE es k) es := by
  induction es with
  | nil => exact List.Sublist.refl _
  | cons p rest ih =>
      simp only [eraseE]
      by_cases h : p.1 = k
      · rw [if_pos h]; exact ih.cons p
      · rw [if_neg h]; exact ih.cons₂ p

theorem liveE_sublist (now : Nat) (es : List (String × Entry)) :
    List.Sublist (liveE now es) es := by
  induction es with
  | nil => exact List.Sublist.refl _
  | cons p rest ih =>
      simp only [liveE]
      by_cases h : now < p.2.expires_at
      · rw [if_pos h]; exact ih.cons₂ p
      · rw [if_neg h]; exact ih.cons p

theorem not_mem_keysOf_eraseE (es : List (String × Entry)) (k : String) :
    k ∉ keysOf (eraseE es k) := by
  induction es with
  | nil => simp [eraseE, keysOf]
  | cons p rest ih =>
      simp only [eraseE]
      by_cases h : p.1 = k
      · rw [if_pos h]; exact ih
      · rw [if_neg h]
        simp only [keysOf, List.map_cons, List.mem_cons]
        rintro (heq | hmem)
        · exact h heq.symm
        · exact ih hmem

theorem eraseE_eq_of_not_mem {es : List (String × Entry)} {k : String}
    (h : k ∉ keysOf es) : eraseE es k = es := by
  induction es with
  | nil => rfl
  | cons p rest ih =>
      simp only [keysOf, List.map_cons, List.mem_cons, not_or] at h
      simp only [eraseE]
      rw [if_neg (fun heq => h.1 heq.symm), ih h.2]

theorem mem_eraseE_of_ne {es : List (String × Entry)} {p : String × Entry} {k : String}
    (hmem : p ∈ es) (hne : p.1 ≠ k) : p ∈ eraseE es k := by
  induction es with
  | nil => cases hmem
  | cons q rest ih =>
      simp only [eraseE]
      rcases List.mem_cons.mp hmem with heq | hmem'
      · rw [if_neg (heq ▸ hne)]
        exact heq ▸ List.mem_cons_self _ _
      · by_cases h : q.1 = k
        · rw [if_pos h]; exact ih hmem'
        · rw [if_neg h]; exact List.mem_cons_of_mem _ (ih hmem')

theorem length_eraseE_lt {es : List (String × Entry)} {k : String}
    (h : k ∈ keysOf es) : (eraseE es k).length < es.length := by
  induction es with
  | nil => cases h
  | cons p rest ih =>
      simp only [eraseE, List.length_cons]
      by_cases hp : p.1 = k
      · rw [if_pos hp]
        exact Nat.lt_succ_of_le ((eraseE_sublist rest k).length_le)
      · rw [if_neg hp]
        simp only [List.length_cons]
        have hmem : k ∈ keysOf rest := by
          simp only [keysOf, List.map_cons, List.mem_cons] at h
          rcases h with heq | hmem
          · exact absurd heq.symm hp
          · exact hmem
        exact Nat.succ_lt_succ (ih hmem)

theorem length_eraseE_add_one {es : List (String × Entry)} {k : String}
    (hnd : (keysOf es).Nodup) (h : k ∈ keysOf es) :
    (eraseE es k).length + 1 = es.length := by
  induction es with
  | nil => cases h
  | cons p rest ih =>
      simp only [keysOf, List.map_cons, List.nodup_cons] at hnd
      simp only [eraseE, List.length_cons]
      by_cases hp : p.1 = k
      · rw [if_pos hp, eraseE_eq_of_not_mem (hp ▸ hnd.1)]
      · rw [if_neg hp]
        have hmem : k ∈ keysOf rest := by
          simp only [keysOf, List.map_cons, List.mem_cons] at h
          rcases h with heq | hmem
          · exact absurd heq.symm hp
          · exact hmem
        simp only [List.length_cons]
        rw [← ih hnd.2 hmem]

theorem lookupE_liveE {es : List (String × Entry)} {k : String} {e : Entry} {now : Nat}
    (h : lookupE es k = some e) (hl : now < e.expires_at) :
    lookupE (liveE now es) k = some e := by
  induction es with
  | nil => cases h
  | cons p rest ih =>
      simp only [lookupE] at h
      simp only [liveE]
      by_cases hp : p.1 = k
      · rw [if_pos hp] at h
        have he : p.2 = e := Option.some.inj h
        rw [if_pos (he ▸ hl)]
        simp [lookupE, hp, he]
      · rw [if_neg hp] at h
        by_cases hlive : now < p.2.expires_at
        · rw [if_pos hlive]
          simp only [lookupE]
          rw [if_neg hp]
          exact ih h
        · rw [if_neg hlive]
          exact ih h

/-! ## Lemmas about the eviction victim -/

theorem pickVictim_eq_or (a b : String × Entry) :
    pickVictim a b = a ∨ pickVictim a b = b := by
  unfold pickVictim
  split
  · exact Or.inr rfl
  · split
    · exact Or.inr rfl
    · exact Or.inl rfl

theorem pickVictim_recency_le_left (a b : String × Entry) :
    (pickVictim a b).2.recency ≤ a.2.recency := by
  unfold pickVictim
  split
  · exact Nat.le_of_lt (by assumption)
  · split
    · next h => exact Nat.le_of_eq h.1
    · exact Nat.le_refl _

theorem pickVictim_recency_le_right (a b : String × Entry) :
    (pickVictim a b).2.recency ≤ b.2.recency := by
  unfold pickVictim
  split
  · exact Nat.le_refl _
  · split
    · exact Nat.le_refl _
    · next h1 _ => exact Nat.le_of_not_lt h1

theorem foldl_pickVictim_mem :
    ∀ (l : List (String × Entry)) (a : String × Entry), l.foldl pickVictim a ∈ a :: l := by
  intro l
  induction l with
  | nil => intro a; exact List.mem_cons_self _ _
  | cons b t ih =>
      intro a
      rw [List.foldl_cons]
      rcases List.mem_cons.mp (ih (pickVictim a b)) with h1 | h1
      · rcases pickVictim_eq_or a b with h2 | h2
        · rw [h1, h2]; exact List.mem_cons_self _ _
        · rw [h1, h2]
          exact List.mem_cons_of_mem _ (List.mem_cons_self _ _)
      · exact List.mem_cons_of_mem _ (List.mem_cons_of_mem _ h1)

theorem foldl_pickVictim_min :
    ∀ (l : List (String × Entry)) (a p : String × Entry), p ∈ a :: l →
      (l.foldl pickVictim a).2.recency ≤ p.2.recency := by
  intro l
  induction l with
  | nil =>
      intro a p hp
      rcases List.mem_cons.mp hp with h | h
      · rw [h]; exact Nat.le_refl _
      · cases h
  | cons b t ih =>
      intro a p hp
      rw [List.foldl_cons]
      rcases List.mem_cons.mp hp with h1 | h1
      · rw [h1]
        exact Nat.le_trans (ih (pickVictim a b) _ (List.mem_cons_self _ _))
          (pickVictim_recency_le_left a b)
      · rcases List.mem_cons.mp h1 with h2 | h2
        · rw [h2]
          exact Nat.le_trans (ih (pickVictim a b) _ (List.mem_cons_self _ _))
            (pickVictim_recency_le_right a b)
        · exact ih (pickVictim a b) p (List.mem_cons_of_mem _ h2)

theorem victim_mem {es : List (String × Entry)} {v : String × Entry}
    (h : evictionVictim es = some v) : v ∈ es := by
  cases es with
  | nil => cases h
  | cons a t =>
      simp only [evictionVictim, Option.some.injEq] at h
      exact h ▸ foldl_pickVictim_mem t a

theorem victim_min {es : List (String × Entry)} {v : String × Entry}
    (h : evictionVictim es = some v) :
    ∀ p ∈ es, v.2.recency ≤ p.2.recency := by
  cases es with
  | nil => cases h
  | cons a t =>
      simp only [evictionVictim, Option.some.injEq] at h
      intro p hp
      exact h ▸ foldl_pickVictim_min t a p hp

theorem victim_isSome {es : List (String × Entry)} (h : es ≠ []) :
    ∃ v, evictionVictim es = some v := by
  cases es with
  | nil => exact absurd rfl h
  | cons a t => exact ⟨_, rfl⟩

/-! ## Invariant preservation -/

theorem liveOthers_sublist (st : LRUTTLCache) (now : Nat) (key : String) :
    List.Sublist (liveOthers st now key) st.entries :=
  List.Sublist.trans (eraseE_sublist _ _) (liveE_sublist _ _)

theorem inv_insertNew {st : LRUTTLCache} {now : Nat} {key : String} {fresh : Entry}
    {st' : LRUTTLCache} (hInv : CacheInv st)
    (h : insertNew st now key fresh = .ok st') :
    CacheInv st' ∧ st'.max_size = st.max_size := by
  obtain ⟨hnd, hlen⟩ := hInv
  have hsub := liveOthers_sublist st now key
  have hndL : (keysOf (liveOthers st now key)).Nodup := hnd.sublist (hsub.map Prod.fst)
  have hkey : key ∉ keysOf (liveOthers st now key) := not_mem_keysOf_eraseE _ _
  have hlenL : (liveOthers st now key).length ≤ st.entries.length := hsub.length_le
  unfold insertNew at h
  split at h
  · next hcap =>
      cases hv : evictionVictim (liveOthers st now key) with
      | none => rw [hv] at h; cases h
      | some v =>
          rw [hv] at h
          simp only [Except.ok.injEq] at h
          subst h
          have hvmem := victim_mem hv
          have hv1 : v.1 ∈ keysOf (liveOthers st now key) :=
            List.mem_map_of_mem Prod.fst hvmem
          refine ⟨⟨?_, ?_⟩, rfl⟩
          · refine List.nodup_cons.mpr ⟨?_, hndL.sublist ((eraseE_sublist _ _).map Prod.fst)⟩
            intro hk
            exact hkey (((eraseE_sublist _ _).map Prod.fst).subset hk)
          · have hone := length_eraseE_add_one hndL hv1
            simp only [List.length_cons]
            rw [hone]
            exact hlenL.trans hlen
  · next hcap =>
      simp only [Except.ok.injEq] at h
      subst h
      refine ⟨⟨List.nodup_cons.mpr ⟨hkey, hndL⟩, ?_⟩, rfl⟩
      simp only [List.length_cons]
      exact Nat.succ_le_of_lt (Nat.lt_of_not_le hcap)

theorem inv_set_ok {st : LRUTTLCache} {now : Nat} {key value : String} {ttl : Option Nat}
    {st' : LRUTTLCache} (hInv : CacheInv st) (h : st.set now key value ttl = .ok st') :
    CacheInv st' ∧ st'.max_size = st.max_size := by
  obtain ⟨hnd, hlen⟩ := hInv
  unfold LRUTTLCache.set at h
  split at h
  · cases h
  · cases hl : lookupE st.entries key with
    | some e =>
        rw [hl] at h
        simp only at h
        split at h
        · simp only [Except.ok.injEq] at h
          subst h
          refine ⟨⟨?_, ?_⟩, rfl⟩
          · exact List.nodup_cons.mpr
              ⟨not_mem_keysOf_eraseE _ _, hnd.sublist ((eraseE_sublist _ _).map Prod.fst)⟩
          · have hk : key ∈ keysOf st.entries := mem_keysOf_of_lookupE hl
            simp only [List.length_cons]
            exact Nat.le_trans (Nat.succ_le_of_lt (length_eraseE_lt hk)) hlen
        · exact inv_insertNew ⟨hnd, hlen⟩ h
    | none =>
        rw [hl] at h
        simp only at h
        exact inv_insertNew ⟨hnd, hlen⟩ h

theorem inv_get (st : LRUTTLCache) (now : Nat) (key : String) (hInv : CacheInv st) :
    CacheInv (st.get now key).2 ∧ (st.get now key).2.max_size = st.max_size := by
  obtain ⟨hnd, hlen⟩ := hInv
  unfold LRUTTLCache.get
  cases hl : lookupE st.entries key with
  | some e =>
      simp only
      split
      · refine ⟨⟨?_, ?_⟩, rfl⟩
        · exact List.nodup_cons.mpr
            ⟨not_mem_keysOf_eraseE _ _, hnd.sublist ((eraseE_sublist _ _).map Prod.fst)⟩
        · have hk : key ∈ keysOf st.entries := mem_keysOf_of_lookupE hl
          simp only [List.length_cons]
          exact Nat.le_trans (Nat.succ_le_of_lt (length_eraseE_lt hk)) hlen
      · exact ⟨⟨hnd, hlen⟩, rfl⟩
  | none => exact ⟨⟨hnd, hlen⟩, rfl⟩

theorem inv_stepOp (st : LRUTTLCache) (op : CacheOp) (hInv : CacheInv st) :
    CacheInv (stepOp st op) ∧ (stepOp st op).max_size = st.max_size := by
  obtain ⟨hnd, hlen⟩ := hInv
  cases op with
  | get now key => exact inv_get st now key ⟨hnd, hlen⟩
  | set now key value ttl =>
      simp only [stepOp]
      cases hset : st.set now key value ttl with
      | ok st₂ => exact inv_set_ok ⟨hnd, hlen⟩ hset
      | error e => exact ⟨⟨hnd, hlen⟩, rfl⟩
  | del key =>
      simp only [stepOp]
      unfold LRUTTLCache.delete
      cases hl : lookupE st.entries key with
      | some e =>
          refine ⟨⟨hnd.sublist ((eraseE_sublist _ _).map Prod.fst), ?_⟩, rfl⟩
          exact Nat.le_trans (eraseE_sublist _ _).length_le hlen
      | none => exact ⟨⟨hnd, hlen⟩, rfl⟩
  | clear => exact ⟨⟨List.nodup_nil, Nat.zero_le _⟩, rfl⟩
  | cleanup now =>
      refine ⟨⟨hnd.sublist ((liveE_sublist _ _).map Prod.fst), ?_⟩, rfl⟩
      exact Nat.le_trans (liveE_sublist _ _).length_le hlen

theorem inv_runOps (st : LRUTTLCache) (ops : List CacheOp) (hInv : CacheInv st) :
    CacheInv (runOps st ops) ∧ (runOps st ops).max_size = st.max_size := by
  induction ops generalizing st with
  | nil => exact ⟨hInv, rfl⟩
  | cons op rest ih =>
      have h1 := inv_stepOp st op hInv
      have h2 := ih (stepOp st op) h1.1
      exact ⟨h2.1, h2.2.trans h1.2⟩

/-! ## Eviction characterization -/

theorem set_evicts_lru_helper {st : LRUTTLCache} {now : Nat} {key value : String}
    {ttl : Option Nat} (hInv : CacheInv st) (hpos : 0 < st.max_size)
    (httl : ttl ≠ some 0)
    (hnolive : lookupE (liveE now st.entries) key = none)
    (hcap : st.max_size ≤ (liveE now st.entries).length) :
    ∃ v st', evictionVictim (liveE now st.entries) = some v ∧
      st.set now key value ttl = .ok st' ∧
      v ∈ liveE now st.entries ∧
      (∀ p ∈ liveE now st.entries, v.2.recency ≤ p.2.recency) ∧
      st'.entries.length = st.max_size ∧
      key ∈ keysOf st'.entries ∧
      v.1 ∉ keysOf st'.entries ∧
      (∀ p ∈ liveE now st.entries, p.1 ≠ v.1 → p.1 ∈ keysOf st'.entries) := by
  obtain ⟨hnd, hlen⟩ := hInv
  have hkeyL : key ∉ keysOf (liveE now st.entries) := lookupE_eq_none_iff.mp hnolive
  have hLO : liveOthers st now key = liveE now st.entries := eraseE_eq_of_not_mem hkeyL
  have hndL : (keysOf (liveE now st.entries)).Nodup :=
    hnd.sublist ((liveE_sublist now st.entries).map Prod.fst)
  have hlenL : (liveE now st.entries).length ≤ st.entries.length :=
    (liveE_sublist now st.entries).length_le
  have hLeq : (liveE now st.entries).length = st.max_size :=
    Nat.le_antisymm (hlenL.trans hlen) hcap
  have hne : liveE now st.entries ≠ [] := by
    intro hnil
    rw [hnil] at hLeq
    exact absurd hLeq.symm (Nat.ne_of_gt hpos)
  obtain ⟨v, hv⟩ := victim_isSome hne
  have hins : insertNew st now key (freshEntry st now value ttl) =
      .ok { st with
            entries := (key, freshEntry st now value ttl) :: eraseE (liveE now st.entries) v.1
          , tick := st.tick + 1 } := by
    unfold insertNew
    rw [hLO, if_pos hcap, hv]
  have hset : st.set now key value ttl =
      .ok { st with
            entries := (key, freshEntry st now value ttl) :: eraseE (liveE now st.entries) v.1
          , tick := st.tick + 1 } := by
    unfold LRUTTLCache.set
    rw [if_neg httl]
    cases hl : lookupE st.entries key with
    | none => simp only; exact hins
    | some e =>
        have hdead : ¬ now < e.expires_at := by
          intro hlive
          have hcontra := lookupE_liveE hl hlive
          rw [hnolive] at hcontra
          cases hcontra
        simp only [if_neg hdead]
        exact hins
  have hvmem := victim_mem hv
  have hv1 : v.1 ∈ keysOf (liveE now st.entries) := List.mem_map_of_mem Prod.fst hvmem
  have hvkey : v.1 ≠ key := fun h => hkeyL (h ▸ hv1)
  refine ⟨v, _, hv, hset, hvmem, victim_min hv, ?_, ?_, ?_, ?_⟩
  · simp only [List.length_cons]
    rw [length_eraseE_add_one hndL hv1]
    exact hLeq
  · exact List.mem_cons_self _ _
  · intro hmem
    rcases List.mem_cons.mp hmem with heq | hmem'
    · exact hvkey heq
    · exact not_mem_keysOf_eraseE _ _ hmem'
  · intro p hp hne'
    exact List.mem_cons_of_mem _
      (List.mem_map_of_mem Prod.fst (mem_eraseE_of_ne hp hne'))

/-! ## Claim C4: bounded size and single-LRU eviction -/

/-- Claim C4: (a) starting from a store constructed with capacity
`max_size`, no sequence of operations ever brings `size()` above
`max_size`; (b) a `set` of a key with no live entry, arriving when the
live entries already fill the capacity, succeeds by evicting exactly one
entry — the least-recently-used live entry: the victim is live, its
recency marker is minimal among all live entries, it is gone from the
result, every other live key is retained together with the inserted key,
and the resulting size is exactly `max_size`. -/
theorem cache_size_bounded_and_evicts_lru :
    (∀ (max_size ttl_secs : Nat) (ops : List CacheOp),
        (runOps (LRUTTLCache.new max_size ttl_secs) ops).size ≤ max_size) ∧
    (∀ (st : LRUTTLCache) (now : Nat) (key value : String) (ttl : Option Nat),
        CacheInv st → 0 < st.max_size → ttl ≠ some 0 →
        lookupE (liveE now st.entries) key = none →
        st.max_size ≤ (liveE now st.entries).length →
        ∃ v st', evictionVictim (liveE now st.entries) = some v ∧
          st.set now key value ttl = .ok st' ∧
          v ∈ liveE now st.entries ∧
          (∀ p ∈ liveE now st.entries, v.2.recency ≤ p.2.recency) ∧
          st'.entries.length = st.max_size ∧
          key ∈ keysOf st'.entries ∧
          v.1 ∉ keysOf st'.entries ∧
          (∀ p ∈ liveE now st.entries, p.1 ≠ v.1 → p.1 ∈ keysOf st'.entries)) := by
  constructor
  · intro max_size ttl_secs ops
    have h := inv_runOps (LRUTTLCache.new max_size ttl_secs) ops
      ⟨List.nodup_nil, Nat.zero_le _⟩
    have hbound := h.1.2
    rw [h.2] at hbound
    exact hbound
  · intro st now key value ttl hInv hpos httl hnl hcap
    exact set_evicts_lru_helper hInv hpos httl hnl hcap

/-- A concrete full store: two live entries, "a" older than "b". -/
def demoStore : LRUTTLCache :=
  { max_size := 2, ttl_secs := 60
  , entries := [ ("a", { value := "1", expires_at := 100, recency := 0 })
               , ("b", { value := "2", expires_at := 100, recency := 1 }) ]
  , tick := 2 }

/-- Witness for claim C4: a concrete operation sequence stays within
capacity, and inserting "c" into the full `demoStore` evicts the LRU
entry. -/
theorem cache_size_bounded_witness :
    (runOps (LRUTTLCache.new 2 60)
        [.set 0 "a" "1" none, .set 1 "b" "2" none, .get 2 "a", .set 3 "c" "3" none]).size
      ≤ 2 ∧
    CacheInv demoStore ∧ 0 < demoStore.max_size ∧ (none : Option Nat) ≠ some 0 ∧
    lookupE (liveE 5 demoStore.entries) "c" = none ∧
    demoStore.max_size ≤ (liveE 5 demoStore.entries).length ∧
    (∃ v st', evictionVictim (liveE 5 demoStore.entries) = some v ∧
      demoStore.set 5 "c" "3" none = .ok st' ∧
      v ∈ liveE 5 demoStore.entries ∧
      (∀ p ∈ liveE 5 demoStore.entries, v.2.recency ≤ p.2.recency) ∧
      st'.entries.length = demoStore.max_size ∧
      "c" ∈ keysOf st'.entries ∧
      v.1 ∉ keysOf st'.entries ∧
      (∀ p ∈ liveE 5 demoStore.entries, p.1 ≠ v.1 → p.1 ∈ keysOf st'.entries)) := by
  refine ⟨cache_size_bounded_and_evicts_lru.1 2 60 _, by decide, by decide, by decide,
    by decide, by decide, ?_⟩
  exact cache_size_bounded_and_evicts_lru.2 demoStore 5 "c" "3" none
    (by decide) (by decide) (by decide) (by decide) (by decide)
